import Mathlib

/-!
Shallow embedding of the game-state simulation engine of `tetris.py`
(a falling-block puzzle game), together with proofs of the specified
properties of the grid model, piece transformations, line clearing,
scoring and the game-state transition.

Modelling conventions:
* Python `int` coordinates become `Int`; loop counters and sizes become `Nat`.
* The grid dictionary `Dict[Position, Cell]` becomes a function
  `Position → Option Cell`; `none` means the key is absent from the dict.
  A Python lookup of a missing key would raise; under the grid's domain
  invariant every lookup the code performs is in-domain, and the model
  totalises those reads with `Option.getD BACKGROUND_CELL`.
* Mutation becomes explicit state passing: each method returns the new value.
* `random.choice` in the piece factory is modelled by an oracle stream of
  draws (`stream : Nat → Tetrimino`) together with a cursor `idx`.
* The unbounded `while` loop of `clean_full_lines` is modelled with fuel;
  the fuel supplied by `clean_full_lines` is proved sufficient whenever the
  grid width is positive (for width 0 the Python loop genuinely diverges).
-/

namespace Tetris

/-- Integer 2D point, from `class Position` in `tetris.py`. -/
structure Position where
  x : Int
  y : Int
deriving DecidableEq

/-- Method `Position.translate` restricted to its `Position` overload
(the only overload the core simulation uses). -/
def Position.translate (p : Position) (q : Position) : Position :=
  ⟨p.x + q.x, p.y + q.y⟩

/-- Method `Position.rot_left`: `(x, y) ↦ (-y, x)`. -/
def Position.rot_left (p : Position) : Position :=
  ⟨-p.y, p.x⟩

/-- Method `Position.rot_right`: `(x, y) ↦ (y, -x)`. -/
def Position.rot_right (p : Position) : Position :=
  ⟨p.y, -p.x⟩

/-- Pygame `Color`, reduced to its r/g/b payload (only carried data). -/
structure Color where
  r : Nat
  g : Nat
  b : Nat
deriving DecidableEq

/-- Dataclass `Cell`: a colour plus a solidity flag. -/
structure Cell where
  color : Color
  solid : Bool
deriving DecidableEq

/-- Constant `BACKGROUND_CELL = Cell(Color(0, 0, 0), False)`. -/
def BACKGROUND_CELL : Cell := ⟨⟨0, 0, 0⟩, false⟩

/-- Class `World`: fixed dimensions and the cell dictionary. -/
structure World where
  width : Nat
  height : Nat
  grid : Position → Option Cell

/-- Constructor `World.__init__`: every position of
`[0,width) × [0,height)` maps to `BACKGROUND_CELL`; no other key exists. -/
def World.init (width : Nat) (height : Nat) : World :=
  { width := width, height := height,
    grid := fun p =>
      if 0 ≤ p.x ∧ p.x < (width : Int) ∧ 0 ≤ p.y ∧ p.y < (height : Int) then
        some BACKGROUND_CELL
      else
        none }

/-- Dictionary-level core of `World.pos_is_free`: the key is present
(`pos in self.grid`) and its cell is not solid. -/
def posFreeG (g : Position → Option Cell) (p : Position) : Bool :=
  match g p with
  | some c => !c.solid
  | none => false

/-- Method `World.pos_is_free`. -/
def World.pos_is_free (w : World) (p : Position) : Bool :=
  posFreeG w.grid p

/-- Pointwise dictionary update `self.grid[pos] = v`. -/
def updateG (g : Position → Option Cell) (p : Position) (v : Option Cell) :
    Position → Option Cell :=
  fun q => if q = p then v else g q

/-- Loop body of `World.stamp`: walk the position list in order, setting
each currently-free position to a solid cell of the given colour. -/
def stampGrid (c : Color) : List Position → (Position → Option Cell) →
    (Position → Option Cell)
  | [], g => g
  | p :: ps, g =>
      stampGrid c ps (if posFreeG g p then updateG g p (some ⟨c, true⟩) else g)

/-- Method `World.stamp`. -/
def World.stamp (w : World) (c : Color) (ps : List Position) : World :=
  { w with grid := stampGrid c ps w.grid }

/-- Inner `for x in range(self.width)` check of `clean_full_lines`:
row `y` is full iff every cell in it is solid. -/
def World.rowFull (w : World) (y : Nat) : Bool :=
  (List.range w.width).all
    (fun (x : Nat) => ((w.grid ⟨(x : Int), (y : Int)⟩).getD BACKGROUND_CELL).solid)

/-- Collapse pass of `clean_full_lines` after finding full row `y`:
for `ty` from `y` down to `0` and `x` in `[0,width)`, row `0` becomes the
background cell and row `ty > 0` receives the cells of row `ty - 1`.
The pass writes rows top-down with decreasing `ty`, so every read of row
`ty - 1` sees the pre-pass value; functionally the new grid is as below. -/
def World.collapse (w : World) (y : Nat) : World :=
  { w with grid := fun p =>
      if 0 ≤ p.x ∧ p.x < (w.width : Int) ∧ 0 ≤ p.y ∧ p.y ≤ (y : Int) then
        (if p.y = 0 then some BACKGROUND_CELL else w.grid ⟨p.x, p.y - 1⟩)
      else
        w.grid p }

/-- Number of solid cells counted in row `y` (termination measure). -/
def World.rowCount (w : World) (y : Nat) : Nat :=
  (List.range w.width).countP
    (fun (x : Nat) => ((w.grid ⟨(x : Int), (y : Int)⟩).getD BACKGROUND_CELL).solid)

/-- Total number of solid cells in the board area (termination measure). -/
def World.solidCount (w : World) : Nat :=
  Finset.sum (Finset.range w.height) (fun y => w.rowCount y)

/-- Fuelled form of the `while y >= 0` loop of `clean_full_lines`.
The second `Nat` argument is `y + 1`, so `0` encodes loop exit (`y < 0`).
A full row is collapsed and the same row index is re-examined (the shifted
row may itself be full); otherwise `y` is decremented. -/
def cleanLoopFuel : Nat → World → Nat → Nat → Option (World × Nat)
  | 0, _, _, _ => none
  | _ + 1, w, 0, count => some (w, count)
  | fuel + 1, w, n + 1, count =>
      if w.rowFull n then cleanLoopFuel fuel (w.collapse n) (n + 1) (count + 1)
      else cleanLoopFuel fuel w n count

/-- Method `World.clean_full_lines`: run the scan loop from
`y = height - 1` with fuel `solidCount + height + 1`, which is proved
sufficient for every positive-width world (`cleanLoopFuel_isSome`). -/
def World.clean_full_lines (w : World) : World × Nat :=
  (cleanLoopFuel (w.solidCount + w.height + 1) w w.height 0).getD (w, 0)

/-- Enum `RotationStrategy`. -/
inductive RotationStrategy where
  | NO_ROTATION : RotationStrategy
  | THREE_BY_THREE : RotationStrategy
deriving DecidableEq

/-- Entry `MOVE_OFFSETS['LEFT']`. -/
def LEFT_OFFSET : Position := ⟨-1, 0⟩

/-- Entry `MOVE_OFFSETS['RIGHT']`. -/
def RIGHT_OFFSET : Position := ⟨1, 0⟩

/-- Entry `MOVE_OFFSETS['DOWN']`. -/
def DOWN_OFFSET : Position := ⟨0, 1⟩

/-- Dataclass `Tetrimino`. -/
structure Tetrimino where
  center_pos : Position
  block_offsets : List Position
  color : Color
  rotation_strategy : RotationStrategy
deriving DecidableEq

/-- Method `Tetrimino.blocks`: each offset translated by the pivot. -/
def Tetrimino.blocks (t : Tetrimino) : List Position :=
  t.block_offsets.map (fun o => t.center_pos.translate o)

/-- Method `Tetrimino.is_legal_in`: every block position is free. -/
def Tetrimino.is_legal_in (t : Tetrimino) (w : World) : Bool :=
  t.blocks.all (fun b => w.pos_is_free b)

/-- Method `Tetrimino.move_offset`. -/
def Tetrimino.move_offset (t : Tetrimino) (offset : Position) : Tetrimino :=
  { t with center_pos := t.center_pos.translate offset }

/-- Method `Tetrimino.rotate_left`. -/
def Tetrimino.rotate_left (t : Tetrimino) : Tetrimino :=
  if t.rotation_strategy = RotationStrategy.NO_ROTATION then t
  else { t with block_offsets := t.block_offsets.map (fun o => o.rot_left) }

/-- Method `Tetrimino.rotate_right`. -/
def Tetrimino.rotate_right (t : Tetrimino) : Tetrimino :=
  if t.rotation_strategy = RotationStrategy.NO_ROTATION then t
  else { t with block_offsets := t.block_offsets.map (fun o => o.rot_right) }

/-- Factory function `o_piece`. -/
def o_piece : Tetrimino :=
  ⟨⟨4, 2⟩, [⟨0, 0⟩, ⟨0, 1⟩, ⟨1, 0⟩, ⟨1, 1⟩], ⟨255, 213, 0⟩,
    RotationStrategy.NO_ROTATION⟩

/-- Factory function `l_piece`. -/
def l_piece : Tetrimino :=
  ⟨⟨4, 2⟩, [⟨0, 0⟩, ⟨-1, 0⟩, ⟨1, 0⟩, ⟨1, 1⟩], ⟨114, 203, 59⟩,
    RotationStrategy.THREE_BY_THREE⟩

/-- Factory function `rl_piece`. -/
def rl_piece : Tetrimino :=
  ⟨⟨4, 2⟩, [⟨0, 0⟩, ⟨-1, 0⟩, ⟨1, 0⟩, ⟨-1, 1⟩], ⟨255, 151, 28⟩,
    RotationStrategy.THREE_BY_THREE⟩

/-- Factory function `i_piece`. -/
def i_piece : Tetrimino :=
  ⟨⟨4, 2⟩, [⟨0, 0⟩, ⟨-1, 0⟩, ⟨1, 0⟩, ⟨2, 0⟩], ⟨3, 65, 174⟩,
    RotationStrategy.THREE_BY_THREE⟩

/-- Factory function `t_piece`. -/
def t_piece : Tetrimino :=
  ⟨⟨4, 2⟩, [⟨0, 0⟩, ⟨-1, 0⟩, ⟨1, 0⟩, ⟨0, 1⟩], ⟨145, 79, 166⟩,
    RotationStrategy.THREE_BY_THREE⟩

/-- Factory function `s_piece`. -/
def s_piece : Tetrimino :=
  ⟨⟨4, 2⟩, [⟨0, 0⟩, ⟨-1, 0⟩, ⟨0, 1⟩, ⟨1, 1⟩], ⟨255, 193, 124⟩,
    RotationStrategy.THREE_BY_THREE⟩

/-- Factory function `z_piece`. -/
def z_piece : Tetrimino :=
  ⟨⟨4, 2⟩, [⟨0, 0⟩, ⟨1, 0⟩, ⟨0, 1⟩, ⟨-1, 1⟩], ⟨255, 50, 19⟩,
    RotationStrategy.THREE_BY_THREE⟩

/-- Dataclass `TetriminoFactory`, holding the one buffered next piece.
The call `random.choice(...)` is modelled by the oracle `stream` of draws
read at cursor `idx`; each draw advances the cursor. -/
structure TetriminoFactory where
  next_tetrimino : Tetrimino
  stream : Nat → Tetrimino
  idx : Nat

/-- Method `TetriminoFactory.pop_next_tetrimino`: return the buffered piece
and refill the buffer with a fresh draw. -/
def TetriminoFactory.pop_next_tetrimino (f : TetriminoFactory) :
    Tetrimino × TetriminoFactory :=
  (f.next_tetrimino,
   { next_tetrimino := f.stream f.idx, stream := f.stream, idx := f.idx + 1 })

/-- Method `TetriminoFactory.reset`: redraw the buffer, returning nothing. -/
def TetriminoFactory.reset (f : TetriminoFactory) : TetriminoFactory :=
  { next_tetrimino := f.stream f.idx, stream := f.stream, idx := f.idx + 1 }

/-- Dataclass `GameState`. -/
structure GameState where
  world : World
  score : Nat
  tetrimino : Tetrimino
  running : Bool
  level : Nat
  lines_cleared : Nat
  t_factory : TetriminoFactory

/-- Function `calculate_score_increase`: the `assert (0 <= n <= 4)` is
modelled by returning `none` outside the domain, `some` of the table value
inside it. -/
def calculate_score_increase (n : Int) : Option Nat :=
  if 0 ≤ n ∧ n ≤ 4 then
    some (if n = 1 then 100 else if n = 2 then 200 else if n = 3 then 400
          else if n = 4 then 800 else 0)
  else
    none

/-- Method `GameState.reset`: fresh world of the original dimensions, zeroed
counters, `running = True`, factory redrawn, then a fresh piece popped. -/
def GameState.reset (s : GameState) : GameState :=
  let f1 := s.t_factory.reset
  let popped := f1.pop_next_tetrimino
  { world := World.init s.world.width s.world.height,
    score := 0,
    tetrimino := popped.1,
    running := true,
    level := 1,
    lines_cleared := 0,
    t_factory := popped.2 }

/-- Method `GameState.update_state`. When not running, nothing happens.
Otherwise the piece descends if legal; else the grid is stamped with the
current piece, full lines are cleared, `_add_cleared_lines` updates the
counters (`level = 1 + floor(lines_cleared / 10)` is exact integer
division here since `lines_cleared` is a non-negative integer), a new
piece is popped, and `running` becomes false iff that piece is illegal in
the post-stamp, post-clear grid. A failure of the scoring assertion is
modelled as `none`. -/
def GameState.update_state (s : GameState) : Option GameState :=
  if s.running then
    let nt := s.tetrimino.move_offset DOWN_OFFSET
    if nt.is_legal_in s.world then
      some { s with tetrimino := nt }
    else
      let cleaned := (s.world.stamp s.tetrimino.color s.tetrimino.blocks).clean_full_lines
      match calculate_score_increase (cleaned.2 : Int) with
      | none => none
      | some inc =>
          let popped := s.t_factory.pop_next_tetrimino
          some { world := cleaned.1,
                 score := s.score + inc,
                 tetrimino := popped.1,
                 running := popped.1.is_legal_in cleaned.1,
                 level := 1 + (s.lines_cleared + cleaned.2) / 10,
                 lines_cleared := s.lines_cleared + cleaned.2,
                 t_factory := popped.2 }
  else
    some s

/-- Key-down events consumed by `handle_player_input`
(`K_LEFT`, `K_RIGHT`, `K_SPACE`, `K_UP`, `K_DOWN`, `K_r`, `K_s`). -/
inductive Key where
  | left : Key
  | right : Key
  | space : Key
  | up : Key
  | down : Key
  | reset_key : Key
  | audio_key : Key
deriving DecidableEq

/-- Hard-drop `while` loop of `handle_player_input` (`K_SPACE` branch),
fuelled; `handle_player_input` supplies fuel `height + 1`, enough for every
legal descent inside a grid of that height. -/
def hardDropFuel : Nat → Tetrimino → World → Tetrimino
  | 0, t, _ => t
  | fuel + 1, t, w =>
      if (t.move_offset DOWN_OFFSET).is_legal_in w then
        hardDropFuel fuel (t.move_offset DOWN_OFFSET) w
      else t

/-- Function `handle_player_input`: build the proposed piece for the key
(`None` for reset/audio), run the reset side effect for `K_r`, leave state
alone for `K_s` (audio only), then accept the proposal iff it is legal.
Returns the new state and the `end_cycle_early` flag. -/
def handle_player_input (gs : GameState) (k : Key) : GameState × Bool :=
  match k with
  | Key.left =>
      let nt := gs.tetrimino.move_offset LEFT_OFFSET
      (if nt.is_legal_in gs.world then { gs with tetrimino := nt } else gs, false)
  | Key.right =>
      let nt := gs.tetrimino.move_offset RIGHT_OFFSET
      (if nt.is_legal_in gs.world then { gs with tetrimino := nt } else gs, false)
  | Key.space =>
      let nt := hardDropFuel (gs.world.height + 1) gs.tetrimino gs.world
      (if nt.is_legal_in gs.world then { gs with tetrimino := nt } else gs, true)
  | Key.up =>
      let nt := gs.tetrimino.rotate_right
      (if nt.is_legal_in gs.world then { gs with tetrimino := nt } else gs, false)
  | Key.down =>
      let nt := gs.tetrimino.move_offset DOWN_OFFSET
      (if nt.is_legal_in gs.world then { gs with tetrimino := nt } else gs, false)
  | Key.reset_key => (gs.reset, false)
  | Key.audio_key => (gs, false)

/-- Piece proposed by `handle_player_input` for each movement key
(`new_tetrimino` in the source); `none` for the keys that propose no piece. -/
def proposed (gs : GameState) : Key → Option Tetrimino
  | Key.left => some (gs.tetrimino.move_offset LEFT_OFFSET)
  | Key.right => some (gs.tetrimino.move_offset RIGHT_OFFSET)
  | Key.up => some gs.tetrimino.rotate_right
  | Key.down => some (gs.tetrimino.move_offset DOWN_OFFSET)
  | _ => none

/-- Domain invariant of the grid dictionary: exactly the in-bounds
positions carry an entry. -/
def World.inv (w : World) : Prop :=
  ∀ p : Position, (w.grid p).isSome = true ↔
    (0 ≤ p.x ∧ p.x < (w.width : Int) ∧ 0 ≤ p.y ∧ p.y < (w.height : Int))

/-- The in-bounds positions `[0,width) × [0,height)` as a finite set. -/
def posFinset (width : Nat) (height : Nat) : Finset Position :=
  (Finset.range width ×ˢ Finset.range height).map
    ⟨fun q => ⟨(q.1 : Int), (q.2 : Int)⟩, by
      intro a b h
      cases a
      cases b
      simp only [Position.mk.injEq, Nat.cast_inj] at h
      simp [h.1, h.2]⟩

/-- Worlds reachable from construction by any sequence of `stamp` and
`clean_full_lines` calls. -/
inductive Reachable : World → Prop where
  | init : ∀ (width height : Nat), Reachable (World.init width height)
  | stamp : ∀ (w : World) (c : Color) (ps : List Position),
      Reachable w → Reachable (w.stamp c ps)
  | clean : ∀ (w : World), Reachable w → Reachable w.clean_full_lines.1

/-! ### Helper lemmas about stamping -/

lemma stampGrid_apply (c : Color) (ps : List Position) :
    ∀ (g : Position → Option Cell) (p : Position),
      stampGrid c ps g p =
        if posFreeG g p = true ∧ p ∈ ps then some (Cell.mk c true) else g p := by
  induction ps with
  | nil => intro g p; simp [stampGrid]
  | cons q qs ih =>
    intro g p
    rw [stampGrid]
    by_cases hq : posFreeG g q = true
    · simp only [hq, if_true]
      rw [ih]
      by_cases hpq : p = q
      · subst hpq
        have hup : updateG g p (some ⟨c, true⟩) p = some ⟨c, true⟩ := by
          simp [updateG]
        have hfree : posFreeG (updateG g p (some ⟨c, true⟩)) p = false := by
          simp [posFreeG, hup]
        simp [hfree, hup, hq]
      · have hup : updateG g q (some ⟨c, true⟩) p = g p := by
          simp [updateG, hpq]
        have hfree : posFreeG (updateG g q (some ⟨c, true⟩)) p = posFreeG g p := by
          simp [posFreeG, hup]
        simp [hfree, hup, List.mem_cons, hpq]
    · simp only [Bool.not_eq_true] at hq
      simp only [hq, Bool.false_eq_true, if_false]
      rw [ih]
      by_cases hpq : p = q
      · subst hpq
        simp [hq, List.mem_cons]
      · simp [List.mem_cons, hpq]

lemma World.stamp_apply (w : World) (c : Color) (ps : List Position)
    (p : Position) :
    (w.stamp c ps).grid p =
      if w.pos_is_free p = true ∧ p ∈ ps then some (Cell.mk c true)
      else w.grid p :=
  stampGrid_apply c ps w.grid p

lemma stampGrid_isSome (c : Color) (ps : List Position)
    (g : Position → Option Cell) (p : Position) :
    (stampGrid c ps g p).isSome = (g p).isSome := by
  rw [stampGrid_apply]
  by_cases h : posFreeG g p = true ∧ p ∈ ps
  · rw [if_pos h]
    have h1 := h.1
    unfold posFreeG at h1
    cases hg : g p with
    | none => rw [hg] at h1; simp at h1
    | some cell => simp [hg]
  · rw [if_neg h]

/-! ### Helper lemmas about the grid domain invariant -/

lemma mem_posFinset (width height : Nat) (p : Position) :
    p ∈ posFinset width height ↔
      (0 ≤ p.x ∧ p.x < (width : Int) ∧ 0 ≤ p.y ∧ p.y < (height : Int)) := by
  obtain ⟨px, py⟩ := p
  simp only [posFinset, Finset.mem_map, Finset.mem_product,
    Function.Embedding.coeFn_mk, Finset.mem_range, Position.mk.injEq,
    Prod.exists]
  constructor
  · rintro ⟨a, b, ⟨ha, hb⟩, hx, hy⟩
    omega
  · rintro ⟨hx0, hxw, hy0, hyh⟩
    exact ⟨px.toNat, py.toNat, ⟨by omega, by omega⟩, by omega, by omega⟩

lemma card_posFinset (width height : Nat) :
    (posFinset width height).card = width * height := by
  simp [posFinset]

lemma World.inv_init (width height : Nat) : (World.init width height).inv := by
  intro p
  simp only [World.init]
  by_cases h : 0 ≤ p.x ∧ p.x < (width : Int) ∧ 0 ≤ p.y ∧ p.y < (height : Int)
  · simp [h]
  · simp [h]

lemma World.inv_stamp (w : World) (c : Color) (ps : List Position)
    (h : w.inv) : (w.stamp c ps).inv := by
  intro p
  have hs : ((w.stamp c ps).grid p).isSome = (w.grid p).isSome :=
    stampGrid_isSome c ps w.grid p
  rw [hs]
  exact h p

lemma World.inv_collapse (w : World) (n : Nat) (hn : n < w.height)
    (h : w.inv) : (w.collapse n).inv := by
  intro p
  simp only [World.collapse]
  by_cases hc : 0 ≤ p.x ∧ p.x < (w.width : Int) ∧ 0 ≤ p.y ∧ p.y ≤ (n : Int)
  · rw [if_pos hc]
    by_cases hy : p.y = 0
    · rw [if_pos hy]
      simp only [Option.isSome_some, true_iff]
      omega
    · rw [if_neg hy]
      rw [h ⟨p.x, p.y - 1⟩]
      simp only
      omega
  · rw [if_neg hc]
    exact h p

lemma inv_cleanLoopFuel :
    ∀ (fuel : Nat) (w : World) (n count : Nat) (r : World × Nat),
      w.inv → n ≤ w.height → cleanLoopFuel fuel w n count = some r →
      (r.1.inv ∧ r.1.width = w.width ∧ r.1.height = w.height) := by
  intro fuel
  induction fuel with
  | zero => intro w n count r _ _ h; simp [cleanLoopFuel] at h
  | succ f ih =>
    intro w n count r hinv hn h
    cases n with
    | zero =>
      simp only [cleanLoopFuel, Option.some.injEq] at h
      rw [← h]
      exact ⟨hinv, rfl, rfl⟩
    | succ m =>
      simp only [cleanLoopFuel] at h
      by_cases hf : w.rowFull m = true
      · rw [if_pos hf] at h
        have hm : m < w.height := by omega
        exact ih (w.collapse m) (m + 1) (count + 1) r
          (World.inv_collapse w m hm hinv) hn h
      · simp only [Bool.not_eq_true] at hf
        simp only [hf, Bool.false_eq_true, if_false] at h
        exact ih w m count r hinv (by omega) h

lemma World.inv_clean (w : World) (h : w.inv) :
    w.clean_full_lines.1.inv ∧ w.clean_full_lines.1.width = w.width ∧
      w.clean_full_lines.1.height = w.height := by
  unfold World.clean_full_lines
  cases hr : cleanLoopFuel (w.solidCount + w.height + 1) w w.height 0 with
  | none => exact ⟨h, rfl, rfl⟩
  | some r =>
    simp only [Option.getD_some]
    exact inv_cleanLoopFuel _ w w.height 0 r h (le_refl _) hr

/-! ### Helper lemmas about the collapse pass and the scan loop -/

lemma World.collapse_grid (w : World) (n : Nat) (p : Position) :
    (w.collapse n).grid p =
      if 0 ≤ p.x ∧ p.x < (w.width : Int) ∧ 0 ≤ p.y ∧ p.y ≤ (n : Int) then
        (if p.y = 0 then some BACKGROUND_CELL else w.grid ⟨p.x, p.y - 1⟩)
      else w.grid p := rfl

lemma World.collapse_grid_mk (w : World) (n : Nat) (a b : Int) :
    (w.collapse n).grid ⟨a, b⟩ =
      if 0 ≤ a ∧ a < (w.width : Int) ∧ 0 ≤ b ∧ b ≤ (n : Int) then
        (if b = 0 then some BACKGROUND_CELL else w.grid ⟨a, b - 1⟩)
      else w.grid ⟨a, b⟩ := rfl

lemma World.rowCount_collapse_zero (w : World) (n : Nat) :
    (w.collapse n).rowCount 0 = 0 := by
  unfold World.rowCount
  rw [List.countP_eq_zero]
  intro x hx
  simp only [List.mem_range] at hx
  have hxw : x < w.width := hx
  rw [World.collapse_grid_mk]
  rw [if_pos (by omega)]
  rw [if_pos (by omega)]
  simp [BACKGROUND_CELL]

lemma World.rowCount_collapse_shift (w : World) (n ty : Nat)
    (h1 : 1 ≤ ty) (h2 : ty ≤ n) :
    (w.collapse n).rowCount ty = w.rowCount (ty - 1) := by
  unfold World.rowCount
  apply List.countP_congr
  intro x hx
  simp only [List.mem_range] at hx
  have hxw : x < w.width := hx
  rw [World.collapse_grid_mk]
  rw [if_pos (by omega)]
  rw [if_neg (by omega)]
  have hcast : (ty : Int) - 1 = ((ty - 1 : Nat) : Int) := by omega
  rw [hcast]

lemma World.rowCount_collapse_above (w : World) (n ty : Nat) (h : n < ty) :
    (w.collapse n).rowCount ty = w.rowCount ty := by
  unfold World.rowCount
  apply List.countP_congr
  intro x hx
  rw [World.collapse_grid_mk]
  rw [if_neg (by omega)]

lemma World.rowCount_full (w : World) (n : Nat) (h : w.rowFull n = true) :
    w.rowCount n = w.width := by
  unfold World.rowFull at h
  rw [List.all_eq_true] at h
  unfold World.rowCount
  refine Eq.trans (List.countP_eq_length.mpr ?_) (List.length_range w.width)
  exact h

lemma World.solidCount_collapse (w : World) (n : Nat) (hn : n < w.height)
    (hf : w.rowFull n = true) :
    (w.collapse n).solidCount + w.width = w.solidCount := by
  unfold World.solidCount
  have key : ∀ f : Nat → Nat,
      Finset.sum (Finset.range w.height) f =
        Finset.sum (Finset.range (n + 1)) f +
          Finset.sum (Finset.Ico (n + 1) w.height) f := by
    intro f
    rw [Finset.range_eq_Ico]
    rw [Finset.sum_Ico_consecutive f (Nat.zero_le _) (by omega)]
  have hh : (w.collapse n).height = w.height := rfl
  rw [hh]
  rw [key (fun y => (w.collapse n).rowCount y), key (fun y => w.rowCount y)]
  have habove : Finset.sum (Finset.Ico (n + 1) w.height)
      (fun y => (w.collapse n).rowCount y) =
      Finset.sum (Finset.Ico (n + 1) w.height) (fun y => w.rowCount y) := by
    apply Finset.sum_congr rfl
    intro y hy
    simp only [Finset.mem_Ico] at hy
    exact World.rowCount_collapse_above w n y (by omega)
  have hlow : Finset.sum (Finset.range (n + 1))
      (fun y => (w.collapse n).rowCount y) =
      Finset.sum (Finset.range n) (fun y => w.rowCount y) := by
    rw [Finset.sum_range_succ']
    have hshift : Finset.sum (Finset.range n)
        (fun i => (w.collapse n).rowCount (i + 1)) =
        Finset.sum (Finset.range n) (fun i => w.rowCount i) := by
      apply Finset.sum_congr rfl
      intro i hi
      simp only [Finset.mem_range] at hi
      rw [World.rowCount_collapse_shift w n (i + 1) (by omega) (by omega)]
      simp
    rw [hshift, World.rowCount_collapse_zero]
    omega
  rw [habove, hlow]
  rw [Finset.sum_range_succ]
  rw [World.rowCount_full w n hf]
  omega

lemma World.solidCount_pos (w : World) (n : Nat) (hn : n < w.height)
    (hw : 0 < w.width) (hf : w.rowFull n = true) : 0 < w.solidCount := by
  have h1 : w.rowCount n = w.width := World.rowCount_full w n hf
  have h2 : w.rowCount n ≤ w.solidCount :=
    Finset.single_le_sum (fun i _ => Nat.zero_le (w.rowCount i))
      (Finset.mem_range.mpr hn)
  omega

lemma cleanLoopFuel_isSome :
    ∀ (fuel : Nat) (w : World) (n count : Nat), 0 < w.width → n ≤ w.height →
      w.solidCount + n < fuel → (cleanLoopFuel fuel w n count).isSome = true := by
  intro fuel
  induction fuel with
  | zero => intro w n count _ _ h; omega
  | succ f ih =>
    intro w n count hw hn hfuel
    cases n with
    | zero => simp [cleanLoopFuel]
    | succ m =>
      simp only [cleanLoopFuel]
      by_cases hf : w.rowFull m = true
      · rw [if_pos hf]
        have hm : m < w.height := by omega
        have hdec := World.solidCount_collapse w m hm hf
        exact ih (w.collapse m) (m + 1) (count + 1) hw hn (by omega)
      · simp only [Bool.not_eq_true] at hf
        simp only [hf, Bool.false_eq_true, if_false]
        exact ih w m count hw (by omega) (by omega)

lemma cleanLoopFuel_no_full :
    ∀ (n fuel count : Nat) (w : World), n < fuel →
      (∀ k, k < n → w.rowFull k = false) →
      cleanLoopFuel fuel w n count = some (w, count) := by
  intro n
  induction n with
  | zero =>
    intro fuel count w hf _
    cases fuel with
    | zero => omega
    | succ f => simp [cleanLoopFuel]
  | succ m ih =>
    intro fuel count w hf hrows
    cases fuel with
    | zero => omega
    | succ f =>
      simp only [cleanLoopFuel]
      have hm : w.rowFull m = false := hrows m (by omega)
      simp only [hm, Bool.false_eq_true, if_false]
      exact ih f count w (by omega) (fun k hk => hrows k (by omega))

lemma cleanLoopFuel_skip :
    ∀ (j fuel count r : Nat) (w : World),
      (∀ k, r < k → k < r + 1 + j → w.rowFull k = false) →
      cleanLoopFuel (fuel + j) w (r + 1 + j) count =
        cleanLoopFuel fuel w (r + 1) count := by
  intro j
  induction j with
  | zero => intro fuel count r w _; rfl
  | succ m ih =>
    intro fuel count r w hrows
    have he1 : fuel + (m + 1) = (fuel + m) + 1 := by omega
    have he2 : r + 1 + (m + 1) = (r + 1 + m) + 1 := by omega
    rw [he1, he2]
    simp only [cleanLoopFuel]
    have hfull : w.rowFull (r + 1 + m) = false := hrows _ (by omega) (by omega)
    simp only [hfull, Bool.false_eq_true, if_false]
    exact ih fuel count r w (fun k hk1 hk2 => hrows k hk1 (by omega))

/-! ### Claim theorems -/

/-- C2: `calculate_score_increase` maps 0, 1, 2, 3, 4 to 0, 100, 200, 400,
800 exactly, and on every integer outside `[0, 4]` it fails its domain
assertion (modelled as `none`) instead of returning a value. -/
theorem calculate_score_increase_spec :
    calculate_score_increase 0 = some 0 ∧
    calculate_score_increase 1 = some 100 ∧
    calculate_score_increase 2 = some 200 ∧
    calculate_score_increase 3 = some 400 ∧
    calculate_score_increase 4 = some 800 ∧
    (∀ n : Int, (n < 0 ∨ 4 < n) → calculate_score_increase n = none) := by
  refine ⟨by decide, by decide, by decide, by decide, by decide, ?_⟩
  intro n hn
  unfold calculate_score_increase
  rw [if_neg (by omega)]

/-- Witness for C2: the assertion fires just outside the domain. -/
theorem calculate_score_increase_spec_witness :
    calculate_score_increase 5 = none ∧ calculate_score_increase (-1) = none :=
  ⟨calculate_score_increase_spec.2.2.2.2.2 5 (Or.inr (by omega)),
   calculate_score_increase_spec.2.2.2.2.2 (-1) (Or.inl (by omega))⟩

/-- C6: `stamp` sets each listed position that is currently free to a solid
cell of the given colour and leaves every already-solid or out-of-dictionary
position unchanged; stamping the same positions a second time leaves the
grid exactly as it was after the first stamp. -/
theorem stamp_spec (w : World) (c : Color) (ps : List Position) (p : Position) :
    ((w.stamp c ps).grid p =
      if w.pos_is_free p = true ∧ p ∈ ps then some (Cell.mk c true)
      else w.grid p) ∧
    ((w.stamp c ps).stamp c ps).grid p = (w.stamp c ps).grid p := by
  constructor
  · exact World.stamp_apply w c ps p
  · rw [World.stamp_apply (w.stamp c ps) c ps p]
    by_cases hmem : p ∈ ps
    · by_cases hfree : w.pos_is_free p = true
      · have h1 : (w.stamp c ps).grid p = some (Cell.mk c true) := by
          rw [World.stamp_apply, if_pos ⟨hfree, hmem⟩]
        have h2 : (w.stamp c ps).pos_is_free p = false := by
          unfold World.pos_is_free posFreeG
          rw [h1]
          rfl
        rw [if_neg (by simp [h2])]
      · have h1 : (w.stamp c ps).grid p = w.grid p := by
          rw [World.stamp_apply, if_neg (by simp [hfree])]
        have h2 : (w.stamp c ps).pos_is_free p = false := by
          simp only [Bool.not_eq_true] at hfree
          unfold World.pos_is_free posFreeG at hfree ⊢
          rw [h1]
          exact hfree
        rw [if_neg (by simp [h2])]
    · rw [if_neg (by simp [hmem])]

/-- C7: under the grid domain invariant, `pos_is_free` is true iff the
position lies in `[0,width) × [0,height)` and its cell is not solid; in
particular every out-of-bounds position is never free. -/
theorem pos_is_free_spec (w : World) (hinv : w.inv) (p : Position) :
    (w.pos_is_free p = true ↔
      ((0 ≤ p.x ∧ p.x < (w.width : Int) ∧ 0 ≤ p.y ∧ p.y < (w.height : Int)) ∧
        ((w.grid p).getD BACKGROUND_CELL).solid = false)) ∧
    (¬(0 ≤ p.x ∧ p.x < (w.width : Int) ∧ 0 ≤ p.y ∧ p.y < (w.height : Int)) →
      w.pos_is_free p = false) := by
  have hiff := hinv p
  constructor
  · unfold World.pos_is_free posFreeG
    cases hg : w.grid p with
    | none =>
      rw [hg] at hiff
      simp only [Option.isSome_none, Bool.false_eq_true, false_iff] at hiff
      simp [hiff]
    | some cell =>
      rw [hg] at hiff
      simp only [Option.isSome_some, true_iff] at hiff
      simp [hiff]
  · intro hb
    unfold World.pos_is_free posFreeG
    cases hg : w.grid p with
    | none => rfl
    | some cell =>
      rw [hg] at hiff
      simp only [Option.isSome_some, true_iff] at hiff
      exact absurd hiff hb

/-- Witness for C7: an out-of-bounds position is not free in a fresh
default-sized world. -/
theorem pos_is_free_spec_witness :
    (World.init 10 20).pos_is_free ⟨-1, 5⟩ = false :=
  (pos_is_free_spec (World.init 10 20) (World.inv_init 10 20) ⟨-1, 5⟩).2
    (by decide)

/-- C9: applying `rotate_left` then `rotate_right` to a ThreeByThree piece
restores the original piece (offset sequence, pivot, colour and strategy),
because `rot_right` undoes `rot_left` on every position. -/
theorem rotate_round_trip (t : Tetrimino)
    (h : t.rotation_strategy = RotationStrategy.THREE_BY_THREE) :
    t.rotate_left.rotate_right = t ∧
      (∀ p : Position, p.rot_left.rot_right = p) := by
  have hmap : ∀ l : List Position,
      (l.map Position.rot_left).map Position.rot_right = l := by
    intro l
    induction l with
    | nil => rfl
    | cons a as iha =>
      simp only [List.map_cons, List.cons.injEq]
      refine ⟨?_, iha⟩
      cases a
      simp [Position.rot_left, Position.rot_right]
  constructor
  · cases t with
    | mk cp offs col rs =>
      simp only at h
      subst h
      have hL : (Tetrimino.mk cp offs col
            RotationStrategy.THREE_BY_THREE).rotate_left =
          Tetrimino.mk cp (offs.map Position.rot_left) col
            RotationStrategy.THREE_BY_THREE := by
        unfold Tetrimino.rotate_left
        rw [if_neg (by simp)]
      have hR : (Tetrimino.mk cp (offs.map Position.rot_left) col
            RotationStrategy.THREE_BY_THREE).rotate_right =
          Tetrimino.mk cp ((offs.map Position.rot_left).map Position.rot_right)
            col RotationStrategy.THREE_BY_THREE := by
        unfold Tetrimino.rotate_right
        rw [if_neg (by simp)]
      rw [hL, hR, hmap offs]
  · intro p
    cases p
    simp [Position.rot_left, Position.rot_right]

/-- Witness for C9: the round trip on the concrete L piece. -/
theorem rotate_round_trip_witness :
    l_piece.rotate_left.rotate_right = l_piece :=
  (rotate_round_trip l_piece rfl).1

/-- Bridge between the full-row test and the row solid count. -/
lemma World.rowFull_iff_rowCount (w : World) (n : Nat) :
    w.rowFull n = true ↔ w.rowCount n = w.width := by
  unfold World.rowFull World.rowCount
  rw [List.all_eq_true]
  constructor
  · intro h
    exact Eq.trans (List.countP_eq_length.mpr h) (List.length_range w.width)
  · intro h
    apply List.countP_eq_length.mp
    rw [h, List.length_range]

/-- C5: every world reachable from construction by any sequence of `stamp`
and `clean_full_lines` calls has a total, gap-free cell mapping: an entry
exists exactly for the positions of `[0,width) × [0,height)`, so the
mapping always holds exactly `width * height` entries. -/
theorem reachable_grid_total (w : World) (h : Reachable w) :
    (∀ p : Position, (w.grid p).isSome = true ↔
        (0 ≤ p.x ∧ p.x < (w.width : Int) ∧ 0 ≤ p.y ∧ p.y < (w.height : Int))) ∧
    { p : Position | (w.grid p).isSome = true } =
      ↑(posFinset w.width w.height) ∧
    (posFinset w.width w.height).card = w.width * w.height := by
  have hinv : w.inv := by
    induction h with
    | init width height => exact World.inv_init width height
    | stamp w c ps hR ih => exact World.inv_stamp w c ps ih
    | clean w hR ih => exact (World.inv_clean w ih).1
  refine ⟨hinv, ?_, card_posFinset w.width w.height⟩
  ext p
  simp only [Set.mem_setOf_eq, Finset.mem_coe]
  rw [hinv p, mem_posFinset]

/-- Witness for C5: the freshly built default world has a total mapping of
the right cardinality. -/
theorem reachable_grid_total_witness :
    ((World.init 10 20).grid ⟨3, 4⟩).isSome = true ∧
      (posFinset (World.init 10 20).width (World.init 10 20).height).card =
        (World.init 10 20).width * (World.init 10 20).height :=
  ⟨((reachable_grid_total (World.init 10 20) (Reachable.init 10 20)).1
      ⟨3, 4⟩).mpr (by decide),
   (reachable_grid_total (World.init 10 20) (Reachable.init 10 20)).2.2⟩

/-- C10: for every world of positive width and height, `clean_full_lines`
terminates: a collapse at a full row strictly decreases the total number
of solid cells (while a non-full row decrements the scan index), so the
fuel `clean_full_lines` allots to the scan loop is sufficient. -/
theorem clean_full_lines_terminates (w : World) (hw : 0 < w.width)
    (_hh : 0 < w.height) :
    (∀ n : Nat, n < w.height → w.rowFull n = true →
        (w.collapse n).solidCount < w.solidCount) ∧
    (cleanLoopFuel (w.solidCount + w.height + 1) w w.height 0).isSome = true := by
  constructor
  · intro n hn hf
    have hd := World.solidCount_collapse w n hn hf
    omega
  · exact cleanLoopFuel_isSome _ w w.height 0 hw (le_refl w.height) (by omega)

/-- Witness for C10: the loop finishes on a concrete small world. -/
theorem clean_full_lines_terminates_witness :
    (cleanLoopFuel ((World.init 2 2).solidCount + (World.init 2 2).height + 1)
        (World.init 2 2) (World.init 2 2).height 0).isSome = true :=
  (clean_full_lines_terminates (World.init 2 2) (by decide) (by decide)).2

/-- After collapsing the unique full row, no row at or below it is full. -/
lemma World.collapse_no_full (w : World) (r : Nat) (hw : 0 < w.width)
    (hr : r < w.height)
    (hothers : ∀ k, k < w.height → k ≠ r → w.rowFull k = false) :
    ∀ k, k < r + 1 → (w.collapse r).rowFull k = false := by
  intro k hk
  have hww : (w.collapse r).width = w.width := rfl
  cases k with
  | zero =>
    have hiff := (w.collapse r).rowFull_iff_rowCount 0
    rw [World.rowCount_collapse_zero, hww] at hiff
    cases hcf : (w.collapse r).rowFull 0 with
    | false => rfl
    | true =>
      have h0 := hiff.mp hcf
      omega
  | succ m =>
    have hiff := (w.collapse r).rowFull_iff_rowCount (m + 1)
    rw [World.rowCount_collapse_shift w r (m + 1) (by omega) (by omega),
      hww] at hiff
    simp only [Nat.add_sub_cancel] at hiff
    have hm : w.rowFull m = false := hothers m (by omega) (by omega)
    have hne : ¬ w.rowCount m = w.width := by
      intro hc
      have h2 := (w.rowFull_iff_rowCount m).mpr hc
      rw [hm] at h2
      exact absurd h2 (by simp)
    cases hcf : (w.collapse r).rowFull (m + 1) with
    | false => rfl
    | true => exact absurd (hiff.mp hcf) hne

/-- C1: `clean_full_lines` scans rows from the bottom upward; a full row is
collapsed (each row `ty ≤` the cleared row receives the contents of row
`ty - 1`, the top row becomes background) with the same scan index then
re-examined rather than advanced past, and the call returns the number of
rows cleared. With exactly one full row `r`, the call returns `1`, row `r`
afterwards holds the previous contents of row `r - 1` (rows `1..r` all
shift down by one), row `0` becomes all background, and every cell outside
columns `[0,width)` or below row `r` keeps its previous value. -/
theorem clean_full_lines_single_row (w : World) (r : Nat) (hw : 0 < w.width)
    (hr : r < w.height) (hfull : w.rowFull r = true)
    (hothers : ∀ k, k < w.height → k ≠ r → w.rowFull k = false) :
    (∀ (fuel : Nat) (w2 : World) (n c : Nat), w2.rowFull n = true →
        cleanLoopFuel (fuel + 1) w2 (n + 1) c =
          cleanLoopFuel fuel (w2.collapse n) (n + 1) (c + 1)) ∧
    w.clean_full_lines = (w.collapse r, 1) ∧
    w.clean_full_lines.2 = 1 ∧
    (∀ x : Int, 0 ≤ x → x < (w.width : Int) →
        w.clean_full_lines.1.grid ⟨x, 0⟩ = some BACKGROUND_CELL) ∧
    (∀ x y : Int, 0 ≤ x → x < (w.width : Int) → 1 ≤ y → y ≤ (r : Int) →
        w.clean_full_lines.1.grid ⟨x, y⟩ = w.grid ⟨x, y - 1⟩) ∧
    (∀ p : Position,
        ((r : Int) < p.y ∨ p.y < 0 ∨ p.x < 0 ∨ (w.width : Int) ≤ p.x) →
        w.clean_full_lines.1.grid p = w.grid p) := by
  have hstep : ∀ (fuel : Nat) (w2 : World) (n c : Nat), w2.rowFull n = true →
      cleanLoopFuel (fuel + 1) w2 (n + 1) c =
        cleanLoopFuel fuel (w2.collapse n) (n + 1) (c + 1) := by
    intro fuel w2 n c hf
    simp [cleanLoopFuel, hf]
  have hmain : w.clean_full_lines = (w.collapse r, 1) := by
    unfold World.clean_full_lines
    have hskip := cleanLoopFuel_skip (w.height - 1 - r)
      (w.solidCount + r + 2) 0 r w
      (fun k hk1 hk2 => hothers k (by omega) (by omega))
    have e1 : w.solidCount + r + 2 + (w.height - 1 - r) =
        w.solidCount + w.height + 1 := by omega
    have e2 : r + 1 + (w.height - 1 - r) = w.height := by omega
    rw [e1, e2] at hskip
    have e3 : w.solidCount + r + 2 = (w.solidCount + r + 1) + 1 := by omega
    rw [e3] at hskip
    rw [hstep (w.solidCount + r + 1) w r 0 hfull] at hskip
    have hpos : 0 < w.solidCount := World.solidCount_pos w r hr hw hfull
    have hzero := cleanLoopFuel_no_full (r + 1) (w.solidCount + r + 1) 1
      (w.collapse r) (by omega)
      (World.collapse_no_full w r hw hr hothers)
    rw [hzero] at hskip
    rw [hskip]
    rfl
  refine ⟨hstep, hmain, by rw [hmain], ?_, ?_, ?_⟩
  · intro x hx0 hxw
    rw [hmain]
    rw [World.collapse_grid_mk]
    rw [if_pos (by omega)]
    rw [if_pos rfl]
  · intro x y hx0 hxw hy1 hyr
    rw [hmain]
    rw [World.collapse_grid_mk]
    rw [if_pos (by omega)]
    rw [if_neg (by omega)]
  · intro p hp
    obtain ⟨px, py⟩ := p
    simp only at hp
    rw [hmain]
    rw [World.collapse_grid_mk]
    rw [if_neg (by omega)]

/-- Witness for C1: a 2×2 world whose bottom row was stamped full clears
exactly one line. -/
theorem clean_full_lines_single_row_witness :
    ((World.init 2 2).stamp ⟨9, 9, 9⟩ [⟨0, 1⟩, ⟨1, 1⟩]).clean_full_lines.2 = 1 :=
  (clean_full_lines_single_row
      ((World.init 2 2).stamp ⟨9, 9, 9⟩ [⟨0, 1⟩, ⟨1, 1⟩]) 1
      (by decide) (by decide) (by decide) (by decide)).2.2.1

/-- Concrete factory used by the concrete game states below. -/
def sampleFactory : TetriminoFactory :=
  ⟨o_piece, fun _ => l_piece, 0⟩

/-- Concrete terminal (game-over) state. -/
def sampleStoppedState : GameState :=
  ⟨World.init 10 20, 0, o_piece, false, 1, 0, sampleFactory⟩

/-- Concrete running state whose piece touches the left wall. -/
def sampleWallState : GameState :=
  ⟨World.init 10 20, 0,
    Tetrimino.mk ⟨0, 2⟩ [⟨0, 0⟩, ⟨0, 1⟩, ⟨1, 0⟩, ⟨1, 1⟩] ⟨255, 213, 0⟩
      RotationStrategy.NO_ROTATION,
    true, 1, 0, sampleFactory⟩

/-- C4: `reset`, invocable in any prior state, leaves score 0, level 1,
lines_cleared 0, running true, an all-background grid of the original
width and height (and nothing outside it), a freshly redrawn supply
buffer, and a fresh active piece popped from the supply. -/
theorem reset_spec (s : GameState) :
    s.reset.score = 0 ∧
    s.reset.level = 1 ∧
    s.reset.lines_cleared = 0 ∧
    s.reset.running = true ∧
    s.reset.world.width = s.world.width ∧
    s.reset.world.height = s.world.height ∧
    (∀ p : Position,
        (0 ≤ p.x ∧ p.x < (s.world.width : Int) ∧ 0 ≤ p.y ∧
          p.y < (s.world.height : Int)) →
        s.reset.world.grid p = some BACKGROUND_CELL) ∧
    (∀ p : Position,
        ¬(0 ≤ p.x ∧ p.x < (s.world.width : Int) ∧ 0 ≤ p.y ∧
          p.y < (s.world.height : Int)) →
        s.reset.world.grid p = none) ∧
    s.reset.tetrimino = s.t_factory.stream s.t_factory.idx ∧
    s.reset.t_factory.next_tetrimino =
      s.t_factory.stream (s.t_factory.idx + 1) := by
  refine ⟨rfl, rfl, rfl, rfl, rfl, rfl, ?_, ?_, rfl, rfl⟩
  · intro p hp
    exact if_pos hp
  · intro p hp
    exact if_neg hp

/-- Witness for C4: resetting a concrete dead state restores the initial
counters and an empty grid cell. -/
theorem reset_spec_witness :
    sampleStoppedState.reset.score = 0 ∧
      sampleStoppedState.reset.running = true ∧
      sampleStoppedState.reset.world.grid ⟨0, 0⟩ = some BACKGROUND_CELL :=
  ⟨(reset_spec sampleStoppedState).1,
   (reset_spec sampleStoppedState).2.2.2.1,
   (reset_spec sampleStoppedState).2.2.2.2.2.2.1 ⟨0, 0⟩ (by decide)⟩

/-- C3: `update_state` leaves a non-running state entirely unchanged; when
running, the tick ends with running = false exactly when the piece cannot
descend and the newly popped piece is illegal in the post-stamp,
post-clear grid; neither `update_state` nor any non-reset input ever turns
running back on, while `reset` always does. -/
theorem update_state_terminal (s : GameState) :
    (s.running = false → s.update_state = some s) ∧
    (∀ s2 : GameState, s.running = true → s.update_state = some s2 →
      (s2.running = false ↔
        ((s.tetrimino.move_offset DOWN_OFFSET).is_legal_in s.world = false ∧
          s.t_factory.pop_next_tetrimino.1.is_legal_in
            (s.world.stamp s.tetrimino.color
              s.tetrimino.blocks).clean_full_lines.1 = false))) ∧
    (∀ s2 : GameState, s.update_state = some s2 → s2.running = true →
      s.running = true) ∧
    s.reset.running = true ∧
    (∀ k : Key, k ≠ Key.reset_key →
      (handle_player_input s k).1.running = s.running) := by
  refine ⟨?_, ?_, ?_, rfl, ?_⟩
  · intro h
    unfold GameState.update_state
    rw [h]
    simp
  · intro s2 hrun hupd
    unfold GameState.update_state at hupd
    rw [hrun] at hupd
    simp only [if_true] at hupd
    by_cases hleg :
        (s.tetrimino.move_offset DOWN_OFFSET).is_legal_in s.world = true
    · simp only [hleg, if_true, Option.some.injEq] at hupd
      rw [← hupd]
      simp [hrun, hleg]
    · simp only [Bool.not_eq_true] at hleg
      simp only [hleg, Bool.false_eq_true, if_false] at hupd
      cases hcalc : calculate_score_increase
          ((s.world.stamp s.tetrimino.color
            s.tetrimino.blocks).clean_full_lines.2 : Int) with
      | none => rw [hcalc] at hupd; exact absurd hupd (by simp)
      | some inc =>
        rw [hcalc] at hupd
        simp only [Option.some.injEq] at hupd
        rw [← hupd]
        constructor
        · intro hfalse
          exact ⟨hleg, hfalse⟩
        · intro hconj
          exact hconj.2
  · intro s2 hupd hs2
    cases hrun : s.running with
    | true => rfl
    | false =>
      unfold GameState.update_state at hupd
      rw [hrun] at hupd
      simp only [Bool.false_eq_true, if_false, Option.some.injEq] at hupd
      rw [← hupd] at hs2
      rw [hrun] at hs2
      exact hs2
  · intro k hk
    have hacc : ∀ (nt : Tetrimino) (b : Bool),
        (((if nt.is_legal_in s.world then { s with tetrimino := nt } else s),
          b)).1.running = s.running := by
      intro nt b
      by_cases hleg : nt.is_legal_in s.world = true
      · rw [if_pos hleg]
      · rw [if_neg hleg]
    cases k with
    | left => exact hacc _ _
    | right => exact hacc _ _
    | space => exact hacc _ _
    | up => exact hacc _ _
    | down => exact hacc _ _
    | reset_key => exact absurd rfl hk
    | audio_key => rfl

/-- Witness for C3: ticking a concrete game-over state changes nothing. -/
theorem update_state_terminal_witness :
    sampleStoppedState.update_state = some sampleStoppedState :=
  (update_state_terminal sampleStoppedState).1 rfl

/-- C8: for every move-left, move-right, soft-drop or rotate input whose
proposed transformed piece is not legal in the grid, the input handler
returns the whole state unchanged with no early-cycle flag — the proposal
is silently dropped, no error is raised. -/
theorem illegal_input_noop (gs : GameState) (k : Key) (t : Tetrimino)
    (hp : proposed gs k = some t) (hleg : t.is_legal_in gs.world = false) :
    handle_player_input gs k = (gs, false) := by
  cases k with
  | left =>
    simp only [proposed, Option.some.injEq] at hp
    subst hp
    simp only [handle_player_input]
    rw [if_neg (by simp [hleg])]
  | right =>
    simp only [proposed, Option.some.injEq] at hp
    subst hp
    simp only [handle_player_input]
    rw [if_neg (by simp [hleg])]
  | up =>
    simp only [proposed, Option.some.injEq] at hp
    subst hp
    simp only [handle_player_input]
    rw [if_neg (by simp [hleg])]
  | down =>
    simp only [proposed, Option.some.injEq] at hp
    subst hp
    simp only [handle_player_input]
    rw [if_neg (by simp [hleg])]
  | space => simp [proposed] at hp
  | reset_key => simp [proposed] at hp
  | audio_key => simp [proposed] at hp

/-- Witness for C8: moving a wall-hugging piece further left is rejected
and the state survives untouched. -/
theorem illegal_input_noop_witness :
    handle_player_input sampleWallState Key.left = (sampleWallState, false) :=
  illegal_input_noop sampleWallState Key.left
    (sampleWallState.tetrimino.move_offset LEFT_OFFSET) rfl (by decide)

end Tetris
